import Mathlib

/-!
Shallow embedding of the rpi_exporter collector registry, scrape
orchestration and handler cache (collector/collector.go, collector/cpu.go,
collector/gpu.go, rpi_exporter.go), together with proofs of the
testable properties of the specification.

Go maps are modelled as association lists over `String` keys; `m[k] = v`
is `mapSet`, `m[k]` lookup is `mapGet`, and `len(m) == 0` is `List.isEmpty`.
Fallible Go functions returning `(T, error)` are modelled with `Except`.
-/

deriving instance DecidableEq for Except

namespace RpiExporter

/-- Association-list model of a Go map lookup `v, ok := m[k]`:
the first binding of the key, if any. -/
def mapGet {α : Type} : List (String × α) → String → Option α
  | [], _ => none
  | p :: rest, k => if p.1 == k then some p.2 else mapGet rest k

/-- Association-list model of Go map assignment `m[k] = v`: replace the
binding of `k` if present, otherwise append it. -/
def mapSet {α : Type} : List (String × α) → String → α → List (String × α)
  | [], k, v => [(k, v)]
  | p :: rest, k, v =>
    if p.1 == k then (k, v) :: rest else p :: mapSet rest k v

/-- Whether a key is bound in the association-list map. -/
def containsKey {α : Type} : List (String × α) → String → Bool
  | [], _ => false
  | p :: rest, k => p.1 == k || containsKey rest k

/-- The process-wide registry state: the `factories` map and the
`collectorState` map of collector/collector.go. A factory is the result of
the zero-argument Go constructor `func() (Collector, error)`; the flag
pointer stored by kingpin is modelled as the `Bool` it holds after flag
parsing. -/
structure RegState (C : Type) where
  factories : List (String × Except String C)
  collectorState : List (String × Bool)

/-- The registry before any `init()` has run. -/
def emptyReg {C : Type} : RegState C := ⟨[], []⟩

/-- Model of `registerCollector` of collector/collector.go: unconditionally stores
the flag and the factory under the collector name (the kingpin flag
definition only affects the command line surface). -/
def registerCollector {C : Type} (st : RegState C) (collector : String)
    (isDefaultEnabled : Bool) (factory : Except String C) : RegState C :=
  { factories := mapSet st.factories collector factory,
    collectorState := mapSet st.collectorState collector isDefaultEnabled }

/-- The errors `New` can return, keeping the identities of the Go
`fmt.Errorf` messages: `missing collector: %s`, `disabled collector: %s`,
and a propagated factory error. -/
inductive BuildError where
  | missingCollector (name : String)
  | disabledCollector (name : String)
  | factoryError (msg : String)
deriving DecidableEq

/-- The first loop of `New`: builds the requested-filter map `f`,
failing on an unregistered or disabled name exactly as the Go code does. -/
def buildFLoop {C : Type} (st : RegState C) :
    List (String × Bool) → List String → Except BuildError (List (String × Bool))
  | f, [] => Except.ok f
  | f, filter :: rest =>
    match mapGet st.collectorState filter with
    | none => Except.error (BuildError.missingCollector filter)
    | some enabled =>
      if !enabled then Except.error (BuildError.disabledCollector filter)
      else buildFLoop st (mapSet f filter true) rest

/-- The second loop of `New`: iterates over `collectorState`, invokes the
factory of every enabled collector, and keeps the instance when the filter
map is empty or contains the key. Returns the list of collector names whose
factory was invoked alongside the result, so that factory-invocation claims
can be stated; a name bound to no factory models the Go nil-function panic
as an error. -/
def collectLoop {C : Type} (st : RegState C) (f : List (String × Bool)) :
    List (String × C) → List (String × Bool) →
    List String × Except BuildError (List (String × C))
  | collectors, [] => ([], Except.ok collectors)
  | collectors, (key, enabled) :: rest =>
    if enabled then
      match mapGet st.factories key with
      | none => ([key], Except.error (BuildError.factoryError "nil factory"))
      | some (Except.error e) => ([key], Except.error (BuildError.factoryError e))
      | some (Except.ok c) =>
        let step := collectLoop st f
          (if f.isEmpty || (mapGet f key).getD false then mapSet collectors key c
           else collectors) rest
        (key :: step.1, step.2)
    else collectLoop st f collectors rest

/-- Model of `New` of collector/collector.go: the `collectors` map of the returned
`RPiCollector`, or the first error. -/
def New {C : Type} (st : RegState C) (filters : List String) :
    Except BuildError (List (String × C)) :=
  match buildFLoop st [] filters with
  | Except.error e => Except.error e
  | Except.ok f => (collectLoop st f [] st.collectorState).2

/-- The collector names whose factory `New` invokes, in iteration order. -/
def NewInvoked {C : Type} (st : RegState C) (filters : List String) : List String :=
  match buildFLoop st [] filters with
  | Except.error _ => []
  | Except.ok f => (collectLoop st f [] st.collectorState).1

theorem mapGet_mapSet_self {α : Type} (m : List (String × α)) (k : String) (v : α) :
    mapGet (mapSet m k v) k = some v := by
  induction m with
  | nil => simp [mapSet, mapGet]
  | cons p rest ih =>
    by_cases h : p.1 = k
    · simp [mapSet, mapGet, h, beq_iff_eq]
    · simp [mapSet, mapGet, h, beq_iff_eq, ih]

theorem mapGet_mapSet_ne {α : Type} (m : List (String × α)) {k q : String} (v : α)
    (h : q ≠ k) : mapGet (mapSet m k v) q = mapGet m q := by
  induction m with
  | nil => simp [mapSet, mapGet, beq_iff_eq, Ne.symm h]
  | cons p rest ih =>
    by_cases hp : p.1 = k
    · simp [mapSet, mapGet, hp, beq_iff_eq, Ne.symm h, ih]
    · by_cases hq : p.1 = q
      · simp [mapSet, mapGet, hp, hq, beq_iff_eq, h]
      · simp [mapSet, mapGet, hp, hq, beq_iff_eq, ih]

theorem mapSet_ne_nil {α : Type} (m : List (String × α)) (k : String) (v : α) :
    mapSet m k v ≠ [] := by
  cases m with
  | nil => simp [mapSet]
  | cons p rest =>
    by_cases h : p.1 = k <;> simp [mapSet, h, beq_iff_eq]

theorem containsKey_eq_isSome {α : Type} (m : List (String × α)) (q : String) :
    containsKey m q = (mapGet m q).isSome := by
  induction m with
  | nil => simp [containsKey, mapGet]
  | cons p rest ih =>
    by_cases h : p.1 = q <;> simp [containsKey, mapGet, h, beq_iff_eq, ih]

theorem containsKey_mapSet {α : Type} (m : List (String × α)) (k q : String) (v : α) :
    containsKey (mapSet m k v) q = true ↔ (q = k ∨ containsKey m q = true) := by
  by_cases h : q = k
  · subst h
    simp [containsKey_eq_isSome, mapGet_mapSet_self]
  · simp [containsKey_eq_isSome, mapGet_mapSet_ne m v h, h]

theorem mem_of_mapGet_eq {α : Type} {m : List (String × α)} {k : String} {v : α}
    (h : mapGet m k = some v) : (k, v) ∈ m := by
  induction m with
  | nil => simp [mapGet] at h
  | cons p rest ih =>
    by_cases hp : p.1 = k
    · simp [mapGet, hp, beq_iff_eq] at h
      apply List.mem_cons.mpr
      left
      cases p with
      | mk a b =>
        simp only at hp h
        rw [hp, h]
    · simp [mapGet, hp, beq_iff_eq] at h
      exact List.mem_cons_of_mem _ (ih h)

theorem mapGet_eq_of_mem {α : Type} {m : List (String × α)} {k : String} {v : α}
    (hnd : (m.map Prod.fst).Nodup) (h : (k, v) ∈ m) : mapGet m k = some v := by
  induction m with
  | nil => simp at h
  | cons p rest ih =>
    simp only [List.map_cons, List.nodup_cons] at hnd
    rcases List.mem_cons.mp h with hh | ht
    · simp [mapGet, ← hh]
    · have hk : p.1 ≠ k := by
        intro hc
        exact hnd.1 (hc ▸ List.mem_map_of_mem Prod.fst ht)
      simp [mapGet, hk, beq_iff_eq, ih hnd.2 ht]

theorem getD_false_eq_true {o : Option Bool} : (o.getD false = true) ↔ o = some true := by
  cases o <;> simp

theorem buildFLoop_ok_mapGet {C : Type} (st : RegState C) (filters : List String) :
    ∀ (f0 f : List (String × Bool)), buildFLoop st f0 filters = Except.ok f →
      ∀ k, (mapGet f k = some true ↔ (k ∈ filters ∨ mapGet f0 k = some true)) := by
  induction filters with
  | nil =>
    intro f0 f hok k
    simp only [buildFLoop, Except.ok.injEq] at hok
    subst hok
    simp
  | cons x rest ih =>
    intro f0 f hok k
    cases h1 : mapGet st.collectorState x with
    | none => simp [buildFLoop, h1] at hok
    | some enabled =>
      cases enabled with
      | false => simp [buildFLoop, h1] at hok
      | true =>
        simp only [buildFLoop, h1, Bool.not_true, Bool.false_eq_true, if_false] at hok
        have hrec := ih (mapSet f0 x true) f hok k
        by_cases hk : k = x
        · subst hk
          simp [hrec, mapGet_mapSet_self]
        · rw [mapGet_mapSet_ne f0 true hk] at hrec
          simp [hrec, List.mem_cons, hk]

theorem buildFLoop_ne_nil {C : Type} (st : RegState C) (filters : List String) :
    ∀ (f0 f : List (String × Bool)), buildFLoop st f0 filters = Except.ok f →
      f0 ≠ [] → f ≠ [] := by
  induction filters with
  | nil =>
    intro f0 f hok hne
    simp only [buildFLoop, Except.ok.injEq] at hok
    exact hok ▸ hne
  | cons x rest ih =>
    intro f0 f hok hne
    cases h1 : mapGet st.collectorState x with
    | none => simp [buildFLoop, h1] at hok
    | some enabled =>
      cases enabled with
      | false => simp [buildFLoop, h1] at hok
      | true =>
        simp only [buildFLoop, h1, Bool.not_true, Bool.false_eq_true, if_false] at hok
        exact ih (mapSet f0 x true) f hok (mapSet_ne_nil f0 x true)

theorem buildFLoop_cons_ok_ne_nil {C : Type} (st : RegState C) (x : String)
    (rest : List String) (f0 f : List (String × Bool))
    (hok : buildFLoop st f0 (x :: rest) = Except.ok f) : f ≠ [] := by
  cases h1 : mapGet st.collectorState x with
  | none => simp [buildFLoop, h1] at hok
  | some enabled =>
    cases enabled with
    | false => simp [buildFLoop, h1] at hok
    | true =>
      simp only [buildFLoop, h1, Bool.not_true, Bool.false_eq_true, if_false] at hok
      exact buildFLoop_ne_nil st rest (mapSet f0 x true) f hok (mapSet_ne_nil f0 x true)

theorem buildFLoop_error_at {C : Type} (st : RegState C) (filters : List String) (x : String) :
    ∀ (f0 : List (String × Bool)), x ∈ filters →
      (∀ y ∈ filters, y ≠ x → mapGet st.collectorState y = some true) →
      ((mapGet st.collectorState x = none →
          buildFLoop st f0 filters = Except.error (BuildError.missingCollector x)) ∧
        (mapGet st.collectorState x = some false →
          buildFLoop st f0 filters = Except.error (BuildError.disabledCollector x))) := by
  induction filters with
  | nil => intro f0 hx; simp at hx
  | cons y rest ih =>
    intro f0 hx hothers
    by_cases hy : y = x
    · subst hy
      constructor
      · intro hn; simp [buildFLoop, hn]
      · intro hd; simp [buildFLoop, hd]
    · have hvy : mapGet st.collectorState y = some true :=
        hothers y (List.mem_cons_self y rest) hy
      have hxr : x ∈ rest := by
        rcases List.mem_cons.mp hx with h | h
        · exact absurd h.symm hy
        · exact h
      have hor : ∀ z ∈ rest, z ≠ x → mapGet st.collectorState z = some true :=
        fun z hz => hothers z (List.mem_cons_of_mem y hz)
      have := ih (mapSet f0 y true) hxr hor
      constructor
      · intro hn
        simp only [buildFLoop, hvy, Bool.not_true, Bool.false_eq_true, if_false]
        exact this.1 hn
      · intro hd
        simp only [buildFLoop, hvy, Bool.not_true, Bool.false_eq_true, if_false]
        exact this.2 hd

theorem collectLoop_ok_containsKey {C : Type} (st : RegState C) (f : List (String × Bool))
    (l : List (String × Bool)) :
    ∀ (acc res : List (String × C)), (collectLoop st f acc l).2 = Except.ok res →
      ∀ k, (containsKey res k = true ↔
        (containsKey acc k = true ∨
          ((k, true) ∈ l ∧ (f.isEmpty || (mapGet f k).getD false) = true))) := by
  induction l with
  | nil =>
    intro acc res hok k
    simp only [collectLoop, Except.ok.injEq] at hok
    subst hok
    simp
  | cons p rest ih =>
    obtain ⟨key, enabled⟩ := p
    intro acc res hok k
    cases enabled with
    | false =>
      simp only [collectLoop, Bool.false_eq_true, if_false] at hok
      have := ih acc res hok k
      simp only [this, List.mem_cons, Prod.mk.injEq]
      constructor
      · rintro (h | ⟨h1, h2⟩)
        · exact Or.inl h
        · exact Or.inr ⟨Or.inr h1, h2⟩
      · rintro (h | ⟨(⟨h1, h2⟩ | h1), h2'⟩)
        · exact Or.inl h
        · simp at h2
        · exact Or.inr ⟨h1, h2'⟩
    | true =>
      cases hf : mapGet st.factories key with
      | none => simp [collectLoop, hf] at hok
      | some fc =>
        cases fc with
        | error e => simp [collectLoop, hf] at hok
        | ok c =>
          simp only [collectLoop, hf, if_true] at hok
          have := ih _ res hok k
          by_cases hk : k = key
          · subst hk
            by_cases hcond : (f.isEmpty || (mapGet f k).getD false) = true
            · simp only [hcond, if_true] at this
              simp only [this, containsKey_mapSet, List.mem_cons, Prod.mk.injEq, hcond]
              tauto
            · simp only [hcond, if_neg, Bool.false_eq_true] at this
              simp only [this, List.mem_cons, Prod.mk.injEq, hcond]
              tauto
          · by_cases hcond : (f.isEmpty || (mapGet f key).getD false) = true
            · simp only [hcond, if_true] at this
              have hck : containsKey (mapSet acc key c) k = true ↔
                  (k = key ∨ containsKey acc k = true) := containsKey_mapSet acc key k c
              simp only [this, hck, List.mem_cons, Prod.mk.injEq, hk]
              tauto
            · simp only [hcond, if_neg, Bool.false_eq_true] at this
              simp only [this, List.mem_cons, Prod.mk.injEq, hk]
              tauto

theorem collectLoop_ok_invoked {C : Type} (st : RegState C) (f : List (String × Bool))
    (l : List (String × Bool)) :
    ∀ (acc res : List (String × C)), (collectLoop st f acc l).2 = Except.ok res →
      (collectLoop st f acc l).1 = (l.filter fun p => p.2).map Prod.fst := by
  induction l with
  | nil => intro acc res _; simp [collectLoop]
  | cons p rest ih =>
    obtain ⟨key, enabled⟩ := p
    intro acc res hok
    cases enabled with
    | false =>
      simp only [collectLoop, Bool.false_eq_true, if_false] at hok ⊢
      rw [ih acc res hok]
      simp [List.filter_cons]
    | true =>
      cases hf : mapGet st.factories key with
      | none => simp [collectLoop, hf] at hok
      | some fc =>
        cases fc with
        | error e => simp [collectLoop, hf] at hok
        | ok c =>
          simp only [collectLoop, hf, if_true] at hok ⊢
          rw [ih _ res hok]
          simp [List.filter_cons]

/-- Registry fixture with the two collectors the program registers in its
`init` functions, both enabled by default and with succeeding factories. -/
def testReg : RegState Unit :=
  registerCollector (registerCollector emptyReg "cpu" true (Except.ok ()))
    "gpu" true (Except.ok ())

/-- Registry fixture modelling a run with `--no-collector.gpu`: the gpu
collector is registered but its flag is disabled. -/
def testRegDisabled : RegState Unit :=
  registerCollector (registerCollector emptyReg "cpu" true (Except.ok ()))
    "gpu" false (Except.ok ())

/-- C1: for every registry with distinct names, a successful `New(filters)`
returns a collector map whose keys are exactly the filter names when the
filter is non-empty and every filter name is registered and enabled, and
exactly the names of all enabled collectors when the filter is empty. -/
theorem new_keys_exact {C : Type} (st : RegState C)
    (hnd : (st.collectorState.map Prod.fst).Nodup)
    (filters : List String) (res : List (String × C))
    (hok : New st filters = Except.ok res) :
    ((filters ≠ [] ∧ ∀ x ∈ filters, mapGet st.collectorState x = some true) →
      ∀ k, (containsKey res k = true ↔ k ∈ filters)) ∧
    (filters = [] →
      ∀ k, (containsKey res k = true ↔ mapGet st.collectorState k = some true)) := by
  rw [New] at hok
  cases hbf : buildFLoop st [] filters with
  | error e => rw [hbf] at hok; exact absurd hok (by simp)
  | ok f =>
    rw [hbf] at hok
    have hmem := collectLoop_ok_containsKey st f st.collectorState [] res hok
    constructor
    · rintro ⟨hne, hvalid⟩ k
      have hfne : f ≠ [] := by
        cases filters with
        | nil => exact absurd rfl hne
        | cons x rest => exact buildFLoop_cons_ok_ne_nil st x rest [] f hbf
      have hcond : ∀ q, ((f.isEmpty || (mapGet f q).getD false) = true ↔ q ∈ filters) := by
        intro q
        have h1 : f.isEmpty = false := by
          cases f with
          | nil => exact absurd rfl hfne
          | cons a l => rfl
        rw [h1]
        simp only [Bool.false_or, getD_false_eq_true]
        rw [buildFLoop_ok_mapGet st filters [] f hbf q]
        simp [mapGet]
      rw [hmem k]
      simp only [containsKey, Bool.false_eq_true, false_or]
      constructor
      · rintro ⟨_, h2⟩
        exact (hcond k).mp h2
      · intro hk
        refine ⟨mem_of_mapGet_eq (hvalid k hk), (hcond k).mpr hk⟩
    · intro hfe k
      subst hfe
      have hf0 : f = [] := by
        have : buildFLoop st ([] : List (String × Bool)) ([] : List String)
            = Except.ok ([] : List (String × Bool)) := rfl
        rw [this] at hbf
        exact ((Except.ok.injEq _ _).mp hbf).symm
      subst hf0
      rw [hmem k]
      simp only [containsKey, Bool.false_eq_true, false_or, List.isEmpty_nil,
        Bool.true_or, and_true]
      constructor
      · intro h
        exact mapGet_eq_of_mem hnd h
      · intro h
        exact mem_of_mapGet_eq h

/-- Witness for C1 at a concrete registry and filter. -/
theorem new_keys_exact_witness :
    containsKey [("cpu", ())] "cpu" = true ↔ "cpu" ∈ ["cpu"] :=
  (new_keys_exact testReg (by decide) ["cpu"] [("cpu", ())] rfl).1
    ⟨by decide, by decide⟩ "cpu"

/-- C3 counterexample: with cpu and gpu both registered and enabled,
`New(["cpu"])` invokes the gpu factory although "gpu" is not in the
filter, refuting "Build invokes the factory ... of no other unit". -/
theorem new_invokes_unfiltered_factory_cex :
    NewInvoked testReg ["cpu"] = ["cpu", "gpu"] ∧ "gpu" ∉ (["cpu"] : List String) :=
  ⟨rfl, by decide⟩

/-- C3 amended: a successful `New` invokes the factory of every enabled
registered collector, whether or not it is named in the filter, and each
such factory exactly once (never a disabled or unregistered one). -/
theorem new_invokes_every_enabled_factory {C : Type} (st : RegState C)
    (hnd : (st.collectorState.map Prod.fst).Nodup)
    (filters : List String) (res : List (String × C))
    (hok : New st filters = Except.ok res) :
    NewInvoked st filters = (st.collectorState.filter fun p => p.2).map Prod.fst ∧
    (NewInvoked st filters).Nodup := by
  rw [New] at hok
  cases hbf : buildFLoop st [] filters with
  | error e => rw [hbf] at hok; exact absurd hok (by simp)
  | ok f =>
    rw [hbf] at hok
    have hinv := collectLoop_ok_invoked st f st.collectorState [] res hok
    have hne : NewInvoked st filters = (st.collectorState.filter fun p => p.2).map Prod.fst := by
      simp only [NewInvoked, hbf]
      exact hinv
    refine ⟨hne, ?_⟩
    rw [hne]
    exact List.Nodup.sublist ((List.filter_sublist st.collectorState).map Prod.fst) hnd

/-- Witness for the amended C3 at a concrete registry and filter. -/
theorem new_invokes_every_enabled_factory_witness :
    NewInvoked testReg ["cpu"] = (testReg.collectorState.filter fun p => p.2).map Prod.fst ∧
    (NewInvoked testReg ["cpu"]).Nodup :=
  new_invokes_every_enabled_factory testReg (by decide) ["cpu"] [("cpu", ())] rfl

/-- C4: if one name of the filter is unregistered (resp. registered but
disabled) and every other filter name is registered and enabled, `New`
fails with the missing-collector (resp. disabled-collector) error; as the
result type is `Except`, the failure returns no collector map at all. -/
theorem new_fails_atomically {C : Type} (st : RegState C) (filters : List String)
    (x : String) (hx : x ∈ filters)
    (hothers : ∀ y ∈ filters, y ≠ x → mapGet st.collectorState y = some true) :
    (mapGet st.collectorState x = none →
      New st filters = Except.error (BuildError.missingCollector x)) ∧
    (mapGet st.collectorState x = some false →
      New st filters = Except.error (BuildError.disabledCollector x)) := by
  have h := buildFLoop_error_at st filters x [] hx hothers
  constructor
  · intro hn
    simp only [New, h.1 hn]
  · intro hd
    simp only [New, h.2 hd]

/-- Witness for C4: requesting the disabled gpu collector alongside the
valid cpu collector fails with the disabled-collector error. -/
theorem new_fails_atomically_witness :
    New testRegDisabled ["cpu", "gpu"]
      = Except.error (BuildError.disabledCollector "gpu") :=
  (new_fails_atomically testRegDisabled ["cpu", "gpu"] "gpu" (by decide)
    (by decide)).2 (by decide)

/-- C7 counterexample: `registerCollector` has no duplicate check — a
second registration under the same name replaces the factory and flag of
the first entry instead of being rejected. -/
theorem registerCollector_duplicate_cex :
    (registerCollector (registerCollector (emptyReg : RegState Nat) "cpu" true
        (Except.ok 1)) "cpu" false (Except.ok 2)).factories = [("cpu", Except.ok 2)] ∧
    (registerCollector (registerCollector (emptyReg : RegState Nat) "cpu" true
        (Except.ok 1)) "cpu" false (Except.ok 2)).collectorState = [("cpu", false)] ∧
    (Except.ok 2 : Except String Nat) ≠ Except.ok 1 := by
  refine ⟨by decide, by decide, by decide⟩

/-- A metric sent on the `Collect` channel: a collector reading, or one of
the two per-collector telemetry gauges `execute` appends. Wall-clock
duration is not representable in this embedding, so the duration gauge
carries only its collector label. -/
inductive Metric (α : Type) where
  | reading (value : α)
  | scrapeDurationSeconds (collectorName : String)
  | scrapeSuccess (collectorName : String) (value : Nat)
deriving DecidableEq

/-- Model of `execute` of collector/collector.go applied to the behaviour of one
collector, given as the readings its `Update` sends to the channel before
returning together with the error it returns, if any. After `Update`, the
duration gauge and the success gauge are sent, the latter with value 0
exactly when `Update` returned an error; the error itself is only logged,
never propagated. -/
def execute {α : Type} (name : String) (c : List α × Option String) : List (Metric α) :=
  c.1.map Metric.reading ++
    [Metric.scrapeDurationSeconds name,
     Metric.scrapeSuccess name (if c.2.isSome then 0 else 1)]

/-- Model of `Collect` of collector/collector.go: one `execute` per collector, all
outputs merged into the one channel. The goroutine fan-out and the
`WaitGroup` join are modelled by the merge being the complete
concatenation: each collector contribution depends on that collector
alone, and the returned stream contains every collector output. -/
def Collect {α : Type} : List (String × (List α × Option String)) → List (Metric α)
  | [] => []
  | (name, c) :: rest => execute name c ++ Collect rest

/-- The telemetry gauges of a given collector name within a stream. -/
def outcomesFor {α : Type} (name : String) (ms : List (Metric α)) : List (Metric α) :=
  ms.filter fun m =>
    match m with
    | Metric.scrapeDurationSeconds n => n == name
    | Metric.scrapeSuccess n _ => n == name
    | _ => false

theorem outcomesFor_append {α : Type} (name : String) (l1 l2 : List (Metric α)) :
    outcomesFor name (l1 ++ l2) = outcomesFor name l1 ++ outcomesFor name l2 :=
  List.filter_append _ _

theorem outcomesFor_readings {α : Type} (name : String) (l : List α) :
    outcomesFor name (l.map Metric.reading) = [] := by
  induction l with
  | nil => rfl
  | cons x xs ih =>
    simp only [List.map_cons, outcomesFor, List.filter_cons] at ih ⊢
    exact ih

theorem outcomesFor_execute {α : Type} (name n : String) (c : List α × Option String) :
    outcomesFor name (execute n c) =
      if n = name then
        [Metric.scrapeDurationSeconds n,
         Metric.scrapeSuccess n (if c.2.isSome then 0 else 1)]
      else [] := by
  rw [execute, outcomesFor_append]
  rw [outcomesFor_readings]
  by_cases h : n = name <;>
    simp [outcomesFor, List.filter_cons, h, beq_iff_eq]

theorem outcomesFor_collect_of_notMem {α : Type} (name : String)
    (cs : List (String × (List α × Option String)))
    (hnot : name ∉ cs.map Prod.fst) :
    outcomesFor name (Collect cs) = [] := by
  induction cs with
  | nil => rfl
  | cons p rest ih =>
    obtain ⟨n, c⟩ := p
    simp only [List.map_cons, List.mem_cons] at hnot
    push_neg at hnot
    rw [Collect, outcomesFor_append, outcomesFor_execute,
      if_neg (fun hc => hnot.1 hc.symm), ih hnot.2]
    rfl

/-- C2: `Collect` runs one `execute` per collector and the stream it
returns carries, for each collector, exactly one duration gauge and one
success gauge whose value is 1 iff that collector `Update` returned no
error; a failing collector error is recorded in its gauge and swallowed —
every other collector readings and gauges still appear, and `Collect` is a
total function that always returns the complete merged stream. -/
theorem collect_isolates_unit_outcomes {α : Type}
    (collectors : List (String × (List α × Option String)))
    (hnd : (collectors.map Prod.fst).Nodup)
    (name : String) (c : List α × Option String)
    (hmem : (name, c) ∈ collectors) :
    outcomesFor name (Collect collectors)
        = [Metric.scrapeDurationSeconds name,
           Metric.scrapeSuccess name (if c.2.isSome then 0 else 1)] ∧
    (∀ r ∈ c.1, Metric.reading r ∈ Collect collectors) := by
  induction collectors with
  | nil => simp at hmem
  | cons p rest ih =>
    obtain ⟨n, b⟩ := p
    simp only [List.map_cons, List.nodup_cons] at hnd
    rcases List.mem_cons.mp hmem with hh | ht
    · injection hh with h1 h2
      subst h1
      subst h2
      constructor
      · rw [Collect, outcomesFor_append, outcomesFor_execute, if_pos rfl,
          outcomesFor_collect_of_notMem name rest hnd.1]
        rfl
      · intro r hr
        rw [Collect]
        exact List.mem_append_left _
          (List.mem_append_left _ (List.mem_map_of_mem Metric.reading hr))
    · have hn : n ≠ name := by
        intro hc
        exact hnd.1 (hc ▸ List.mem_map_of_mem Prod.fst ht)
      have hrest := ih hnd.2 ht
      constructor
      · rw [Collect, outcomesFor_append, outcomesFor_execute, if_neg hn, hrest.1]
        rfl
      · intro r hr
        rw [Collect]
        exact List.mem_append_right _ (hrest.2 r hr)

/-- Collector-behaviour fixture: cpu emits one reading and succeeds, gpu
emits nothing and fails. -/
def demoUnits : List (String × (List Nat × Option String)) :=
  [("cpu", ([5], none)), ("gpu", ([], some "exit status 1"))]

/-- Witness for C2: with a failing gpu sibling, the cpu collector still
gets exactly its two gauges, with success value 1. -/
theorem collect_isolates_unit_outcomes_witness :
    outcomesFor "cpu" (Collect demoUnits)
        = [Metric.scrapeDurationSeconds "cpu", Metric.scrapeSuccess "cpu" 1] :=
  (collect_isolates_unit_outcomes demoUnits (by decide) "cpu" ([5], none)
    (by decide)).1

/-- C7 amended: `registerCollector` never fails; after registering a name
its factory and flag are whatever the latest registration supplied, so a
duplicate registration silently replaces the earlier entry. -/
theorem registerCollector_replaces {C : Type} (st : RegState C) (collector : String)
    (isDefaultEnabled : Bool) (factory : Except String C) :
    mapGet (registerCollector st collector isDefaultEnabled factory).factories collector
        = some factory ∧
    mapGet (registerCollector st collector isDefaultEnabled factory).collectorState collector
        = some isDefaultEnabled :=
  ⟨mapGet_mapSet_self _ _ _, mapGet_mapSet_self _ _ _⟩

/-- Byte-wise "less or equal" on character lists, the comparison
`sort.Strings` uses (codepoint order, which coincides with Go byte order
on the ASCII collector names involved). -/
def charListLe : List Char → List Char → Bool
  | [], _ => true
  | _ :: _, [] => false
  | a :: as, b :: bs =>
    if a.toNat < b.toNat then true
    else if b.toNat < a.toNat then false
    else charListLe as bs

/-- String comparison for `sort.Strings`. -/
def stringLe (a b : String) : Bool := charListLe a.data b.data

/-- Insertion step of the sorting model. -/
def insertSorted (x : String) : List String → List String
  | [] => [x]
  | y :: ys => if stringLe x y then x :: y :: ys else y :: insertSorted x ys

/-- Model of `sort.Strings` of rpi_exporter.go `ServeHTTP`: ascending sort; it
never deduplicates. -/
def sortStrings : List String → List String
  | [] => []
  | x :: xs => insertSorted x (sortStrings xs)

/-- The mutable fields of the `handler` struct of rpi_exporter.go, plus a
construction counter: a built pipeline (collector, prometheus registry and
promhttp handler) is identified by the value of the counter at the moment
it was built, so pipelines built at different times are distinct values
and the counter counts pipeline constructions. -/
structure HState where
  unfilteredHandler : Option Nat
  filteredHandlers : List (String × Nat)
  builds : Nat
deriving DecidableEq

/-- Model of the `filteredHandler` method of rpi_exporter.go. On a cache miss it
calls `collector.New`; a `New` failure is returned (Go prefixes the
message when wrapping it) and nothing is stored. The prometheus registry
wiring around a successful `New` cannot fail for these collectors (the
registry is freshly created), so success yields a fresh pipeline identity,
stored under the comma-joined key unless the filter list is empty. -/
def filteredHandler {C : Type} (reg : RegState C) (st : HState) (filters : List String) :
    HState × Except BuildError Nat :=
  if filters.isEmpty && st.unfilteredHandler.isSome then
    (st, Except.ok (st.unfilteredHandler.getD 0))
  else
    let filtersStr := String.intercalate "," filters
    match mapGet st.filteredHandlers filtersStr with
    | some handler => (st, Except.ok handler)
    | none =>
      match New reg filters with
      | Except.error e => (st, Except.error e)
      | Except.ok _ =>
        ({ unfilteredHandler := st.unfilteredHandler,
           filteredHandlers :=
             if filters.isEmpty then st.filteredHandlers
             else mapSet st.filteredHandlers filtersStr st.builds,
           builds := st.builds + 1 },
         Except.ok st.builds)

/-- Model of `newHandler` of rpi_exporter.go: builds the unfiltered pipeline
eagerly and stores it; the Go code panics when that build fails, modelled
by the error result. -/
def newHandler {C : Type} (reg : RegState C) : HState × Except BuildError Unit :=
  match filteredHandler reg ⟨none, [], 0⟩ [] with
  | (st1, Except.ok h) => (⟨some h, st1.filteredHandlers, st1.builds⟩, Except.ok ())
  | (st1, Except.error e) => (st1, Except.error e)

/-- Model of `ServeHTTP` of rpi_exporter.go: read the `collect[]` query values,
sort them, serve the unfiltered pipeline when none were given, otherwise
look up or build the filtered pipeline (on error Go answers 400 with the
message; the error value models that response). -/
def ServeHTTP {C : Type} (reg : RegState C) (st : HState) (queryFilters : List String) :
    HState × Except BuildError Nat :=
  let filters := sortStrings queryFilters
  if filters.isEmpty then (st, Except.ok (st.unfilteredHandler.getD 0))
  else filteredHandler reg st filters

theorem insertSorted_ne_nil (x : String) (l : List String) : insertSorted x l ≠ [] := by
  cases l with
  | nil => simp [insertSorted]
  | cons y ys => by_cases h : stringLe x y <;> simp [insertSorted, h]

theorem sortStrings_cons_ne_nil (x : String) (xs : List String) :
    sortStrings (x :: xs) ≠ [] :=
  insertSorted_ne_nil x (sortStrings xs)

theorem serveHTTP_eq_filteredHandler {C : Type} (reg : RegState C) (st : HState)
    (qf : List String) (hne : qf ≠ []) :
    ServeHTTP reg st qf = filteredHandler reg st (sortStrings qf) := by
  cases qf with
  | nil => exact absurd rfl hne
  | cons x xs =>
    cases hs : sortStrings (x :: xs) with
    | nil => exact absurd hs (sortStrings_cons_ne_nil x xs)
    | cons a l => simp [ServeHTTP, hs]

theorem filteredHandler_ok_caches {C : Type} (reg : RegState C) (st st2 : HState)
    (h : Nat) (filters : List String) (hne : filters ≠ [])
    (hcall : filteredHandler reg st filters = (st2, Except.ok h)) :
    mapGet st2.filteredHandlers (String.intercalate "," filters) = some h := by
  have hie : filters.isEmpty = false := by
    cases filters with
    | nil => exact absurd rfl hne
    | cons a l => rfl
  rw [filteredHandler] at hcall
  rw [hie] at hcall
  simp only [Bool.false_and, Bool.false_eq_true, if_false] at hcall
  cases hm : mapGet st.filteredHandlers (String.intercalate "," filters) with
  | some cached =>
    rw [hm] at hcall
    simp only [Prod.mk.injEq, Except.ok.injEq] at hcall
    rw [← hcall.1, ← hcall.2]
    exact hm
  | none =>
    rw [hm] at hcall
    cases hn : New reg filters with
    | error e => rw [hn] at hcall; simp at hcall
    | ok r =>
      rw [hn] at hcall
      simp only [hie, Bool.false_eq_true, if_false, Prod.mk.injEq, Except.ok.injEq] at hcall
      rw [← hcall.1, ← hcall.2]
      exact mapGet_mapSet_self _ _ _

theorem filteredHandler_cache_hit {C : Type} (reg : RegState C) (st : HState)
    (filters : List String) (h : Nat) (hne : filters ≠ [])
    (hcached : mapGet st.filteredHandlers (String.intercalate "," filters) = some h) :
    filteredHandler reg st filters = (st, Except.ok h) := by
  have hie : filters.isEmpty = false := by
    cases filters with
    | nil => exact absurd rfl hne
    | cons a l => rfl
  rw [filteredHandler, hie]
  simp only [Bool.false_and, Bool.false_eq_true, if_false, hcached]

/-- The handler state right after `newHandler testReg`: the unfiltered
pipeline is pipeline 0, one construction has happened, nothing cached in
the filtered map. -/
def stInit : HState := ⟨some 0, [], 1⟩

/-- Sanity: `newHandler` on the program registry produces `stInit`. -/
theorem newHandler_testReg : newHandler testReg = (stInit, Except.ok ()) := by decide

/-- State after serving `collect[]=gpu&collect[]=cpu` from `stInit`:
pipeline 1 cached under the canonical key. -/
def stCached : HState := ⟨some 0, [("cpu,gpu", 1)], 2⟩

/-- State after serving `collect[]=cpu` from `stInit`. -/
def stCpu : HState := ⟨some 0, [("cpu", 1)], 2⟩

/-- State after additionally serving `collect[]=cpu&collect[]=cpu`. -/
def stCpu2 : HState := ⟨some 0, [("cpu", 1), ("cpu,cpu", 2)], 3⟩

/-- State after serving `collect[]=cpu&collect[]=cpu` from `stInit`. -/
def stCpuCpu : HState := ⟨some 0, [("cpu,cpu", 1)], 2⟩

/-- C5: if a first request whose filters canonicalize to some key got
pipeline `h`, a second request whose filters canonicalize to the same
comma-joined key returns the very same pipeline with the cache state
unchanged — in particular no second construction happens. -/
theorem handler_cache_idempotent {C : Type} (reg : RegState C) (st st2 : HState)
    (h : Nat) (fs1 fs2 : List String) (h1 : fs1 ≠ []) (h2 : fs2 ≠ [])
    (hkey : String.intercalate "," (sortStrings fs1)
        = String.intercalate "," (sortStrings fs2))
    (hfirst : ServeHTTP reg st fs1 = (st2, Except.ok h)) :
    ServeHTTP reg st2 fs2 = (st2, Except.ok h) := by
  have hs1 : sortStrings fs1 ≠ [] := by
    cases fs1 with
    | nil => exact absurd rfl h1
    | cons x xs => exact sortStrings_cons_ne_nil x xs
  have hs2 : sortStrings fs2 ≠ [] := by
    cases fs2 with
    | nil => exact absurd rfl h2
    | cons x xs => exact sortStrings_cons_ne_nil x xs
  rw [serveHTTP_eq_filteredHandler reg st fs1 h1] at hfirst
  rw [serveHTTP_eq_filteredHandler reg st2 fs2 h2]
  have hcache := filteredHandler_ok_caches reg st st2 h (sortStrings fs1) hs1 hfirst
  rw [hkey] at hcache
  exact filteredHandler_cache_hit reg st2 (sortStrings fs2) h hs2 hcache

/-- Witness for C5: the permuted filter lists of the claim, on the
program registry. -/
theorem handler_cache_idempotent_witness :
    ServeHTTP testReg stCached ["cpu", "gpu"] = (stCached, Except.ok 1) :=
  handler_cache_idempotent testReg stInit stCached 1 ["gpu", "cpu"] ["cpu", "gpu"]
    (by decide) (by decide) (by decide) (by decide)

/-- C6: when the filter key is not cached and `collector.New` fails, the
handler returns the build error and the whole handler state — the cache
map in particular — is unchanged; the state being unchanged, an identical
follow-up request reaches `collector.New` again (retries construction)
instead of hitting any cached failure. -/
theorem build_error_not_cached {C : Type} (reg : RegState C) (st : HState)
    (fs : List String) (e : BuildError) (hne : fs ≠ [])
    (hmiss : mapGet st.filteredHandlers
        (String.intercalate "," (sortStrings fs)) = none)
    (herr : New reg (sortStrings fs) = Except.error e) :
    ServeHTTP reg st fs = (st, Except.error e) ∧
    ServeHTTP reg (ServeHTTP reg st fs).1 fs = (st, Except.error e) := by
  have hs : sortStrings fs ≠ [] := by
    cases fs with
    | nil => exact absurd rfl hne
    | cons x xs => exact sortStrings_cons_ne_nil x xs
  have hie : (sortStrings fs).isEmpty = false := by
    cases hsx : sortStrings fs with
    | nil => exact absurd hsx hs
    | cons a l => rfl
  have h1 : ServeHTTP reg st fs = (st, Except.error e) := by
    rw [serveHTTP_eq_filteredHandler reg st fs hne, filteredHandler, hie]
    simp only [Bool.false_and, Bool.false_eq_true, if_false, hmiss, herr]
  refine ⟨h1, ?_⟩
  rw [h1]
  exact h1

/-- Witness for C6: requesting the unregistered collector "temp" fails
with the missing-collector error and leaves the state untouched. -/
theorem build_error_not_cached_witness :
    ServeHTTP testReg stInit ["temp"]
      = (stInit, Except.error (BuildError.missingCollector "temp")) :=
  (build_error_not_cached testReg stInit ["temp"]
    (BuildError.missingCollector "temp") (by decide) (by decide) (by decide)).1

/-- C9 counterexample: the filter lists ["cpu","cpu"] and ["cpu"] are
equal after ordering and deduplication, yet the handler cache — which only
sorts, never deduplicates — gives them different keys, and the second
request constructs and caches a second pipeline (pipeline 2, one more
build) instead of sharing pipeline 1. -/
theorem handler_cache_no_dedup_cex :
    ServeHTTP testReg stInit ["cpu"] = (stCpu, Except.ok 1) ∧
    ServeHTTP testReg stCpu ["cpu", "cpu"] = (stCpu2, Except.ok 2) ∧
    String.intercalate "," (sortStrings ["cpu", "cpu"])
      ≠ String.intercalate "," (sortStrings ["cpu"]) ∧
    stCpu2.builds = stCpu.builds + 1 ∧ (2 : Nat) ≠ 1 := by
  refine ⟨by decide, by decide, by decide, by decide, by decide⟩

/-- C9 amended: two filter lists that are equal after ordering alone
(duplicates preserved — deduplication is not performed, so lists differing
only in duplicates get distinct keys and pipelines) canonicalize to the
same cache key and share one cached pipeline. -/
theorem handler_cache_sorted_equal {C : Type} (reg : RegState C) (st st2 : HState)
    (h : Nat) (fs1 fs2 : List String) (h1 : fs1 ≠ []) (h2 : fs2 ≠ [])
    (hsort : sortStrings fs1 = sortStrings fs2)
    (hfirst : ServeHTTP reg st fs1 = (st2, Except.ok h)) :
    ServeHTTP reg st2 fs2 = (st2, Except.ok h) := by
  have hs1 : sortStrings fs1 ≠ [] := by
    cases fs1 with
    | nil => exact absurd rfl h1
    | cons x xs => exact sortStrings_cons_ne_nil x xs
  rw [serveHTTP_eq_filteredHandler reg st fs1 h1] at hfirst
  rw [serveHTTP_eq_filteredHandler reg st2 fs2 h2, ← hsort]
  exact filteredHandler_cache_hit reg st2 (sortStrings fs1) h hs1
    (filteredHandler_ok_caches reg st st2 h (sortStrings fs1) hs1 hfirst)

/-- Witness for the amended C9: repeating the duplicate-containing list
hits the entry its first occurrence cached. -/
theorem handler_cache_sorted_equal_witness :
    ServeHTTP testReg stCpuCpu ["cpu", "cpu"] = (stCpuCpu, Except.ok 1) :=
  handler_cache_sorted_equal testReg stInit stCpuCpu 1 ["cpu", "cpu"] ["cpu", "cpu"]
    (by decide) (by decide) rfl (by decide)

/-- C10: the comma-joined cache key is not injective — the single
unregistered name "cpu,gpu" and the valid pair ["cpu","gpu"] share the key
"cpu,gpu", so once the valid pair has cached pipeline 1, the request
naming the invalid "cpu,gpu" collector is served that cached pipeline
even though `New` rejects the name with the missing-collector error. -/
theorem comma_key_collision :
    New testReg ["cpu,gpu"] = Except.error (BuildError.missingCollector "cpu,gpu") ∧
    ServeHTTP testReg stInit ["cpu", "gpu"] = (stCached, Except.ok 1) ∧
    ServeHTTP testReg stCached ["cpu,gpu"] = (stCached, Except.ok 1) := by
  refine ⟨by decide, by decide, by decide⟩

/-- Model of `getGpuComponents` of collector/gpu.go. -/
def getGpuComponents : List String := ["core", "h264", "v3d"]

/-- A metric emitted by the gpu collector. The parsed numeric value is
kept abstract in `V` (Go parses with `strconv.ParseFloat`, an external
collaborator, into float64). -/
inductive GpuMetric (V : Type) where
  | temperatureCelsius (value : V)
  | frequencyHertz (component : String) (value : V)
deriving DecidableEq

/-- Scan for the first byte `=` as `strings.IndexByte` does, returning
what follows it. -/
def afterEqChars : List Char → Option (List Char)
  | [] => none
  | c :: rest => if c = '=' then some rest else afterEqChars rest

/-- The `idx := strings.IndexByte(s, '='); if idx != -1 ... s[idx+1:]`
step of collector/gpu.go `Update` (the strings are ASCII, so byte and
character indexing coincide). -/
def afterEq (s : String) : String :=
  match afterEqChars s.data with
  | none => s
  | some rest => ⟨rest⟩

/-- Model of `strings.TrimSuffix`. -/
def trimSuffix (s suffix : String) : String :=
  if suffix.data.isSuffixOf s.data then
    ⟨s.data.take (s.data.length - suffix.data.length)⟩
  else s

/-- The external collaborators of the gpu collector: the vcgencmd
subprocess (`exec.Command(path, args...).Output()`) and
`strconv.ParseFloat`. -/
structure GpuEnv (V : Type) where
  vcgencmd : String
  output : String → List String → Except String String
  parseFloat : String → Except String V

/-- The per-component loop of collector/gpu.go `Update`: the clock of each
component is queried, parsed and its metric sent to the channel before the
next component is queried; on the first failure the loop returns that
error, with everything already sent staying sent. -/
def gpuFreqLoop {V : Type} (env : GpuEnv V) :
    List (GpuMetric V) → List String → List (GpuMetric V) × Option String
  | acc, [] => (acc, none)
  | acc, component :: rest =>
    match env.output env.vcgencmd ["measure_clock", component] with
    | Except.error e => (acc, some e)
    | Except.ok stdout =>
      match env.parseFloat (trimSuffix (afterEq stdout) "\n") with
      | Except.error e => (acc, some e)
      | Except.ok freq =>
        gpuFreqLoop env (acc ++ [GpuMetric.frequencyHertz component freq]) rest

/-- Model of `Update` of collector/gpu.go: the metrics sent to the channel and the
returned error, if any. The temperature is queried, parsed and sent
first, then the component clocks in order. -/
def gpuUpdate {V : Type} (env : GpuEnv V) : List (GpuMetric V) × Option String :=
  match env.output env.vcgencmd ["measure_temp"] with
  | Except.error e => ([], some e)
  | Except.ok stdout =>
    match env.parseFloat (trimSuffix (afterEq stdout) "\x27C\n") with
    | Except.error e => ([], some e)
    | Except.ok temp =>
      gpuFreqLoop env [GpuMetric.temperatureCelsius temp] getGpuComponents

/-- Gpu collaborator fixture: the temperature and the core clock queries
succeed with the documented output shapes, the h264 clock query fails.
Parsed values are kept as their numeric strings. -/
def gpuTestEnv : GpuEnv String :=
  { vcgencmd := "/opt/vc/bin/vcgencmd",
    output := fun _ args =>
      if args = ["measure_temp"] then Except.ok "temp=55.3\x27C\n"
      else if args = ["measure_clock", "core"] then
        Except.ok "frequency(1)=400000000\n"
      else Except.error "exit status 1",
    parseFloat := fun s => Except.ok s }

/-- C8 counterexample: when the h264 clock query fails, `Update` fails —
but the temperature reading and the core frequency reading were already
emitted to the channel, so the claim that no readings are emitted by a
failing `Update` is false. -/
theorem gpu_update_emits_before_failure_cex :
    gpuUpdate gpuTestEnv
      = ([GpuMetric.temperatureCelsius "55.3",
          GpuMetric.frequencyHertz "core" "400000000"], some "exit status 1") ∧
    ([GpuMetric.temperatureCelsius "55.3",
      GpuMetric.frequencyHertz "core" "400000000"] : List (GpuMetric String)) ≠ [] := by
  refine ⟨by decide, by decide⟩

theorem gpuFreqLoop_fails_at {V : Type} (env : GpuEnv V) (freqOf : String → V)
    (c : String) (e : String) (post : List String)
    (hc : env.output env.vcgencmd ["measure_clock", c] = Except.error e) :
    ∀ (pre : List String) (acc : List (GpuMetric V)),
      (∀ x ∈ pre, ∃ out,
          env.output env.vcgencmd ["measure_clock", x] = Except.ok out ∧
          env.parseFloat (trimSuffix (afterEq out) "\n") = Except.ok (freqOf x)) →
      gpuFreqLoop env acc (pre ++ c :: post)
        = (acc ++ pre.map (fun x => GpuMetric.frequencyHertz x (freqOf x)), some e) := by
  intro pre
  induction pre with
  | nil =>
    intro acc _
    simp only [List.nil_append, gpuFreqLoop, hc, List.map_nil, List.append_nil]
  | cons x xs ih =>
    intro acc hpre
    obtain ⟨out, h1, h2⟩ := hpre x (List.mem_cons_self x xs)
    have hxs : ∀ y ∈ xs, ∃ o,
        env.output env.vcgencmd ["measure_clock", y] = Except.ok o ∧
        env.parseFloat (trimSuffix (afterEq o) "\n") = Except.ok (freqOf y) :=
      fun y hy => hpre y (List.mem_cons_of_mem x hy)
    simp only [List.cons_append, gpuFreqLoop, h1, h2, List.append_eq]
    rw [ih (acc ++ [GpuMetric.frequencyHertz x (freqOf x)]) hxs]
    simp

/-- C8 amended: if the clock query of any single gpu component fails, the
whole `Update` call fails with that error, and neither the failing
component nor any later component gets a reading — but the temperature
reading and the readings of the components processed before the failure
were already emitted (the emission is a prefix, not empty). -/
theorem gpu_update_fails_whole_call {V : Type} (env : GpuEnv V) (temp : V)
    (stdoutTemp : String) (freqOf : String → V) (pre post : List String)
    (c : String) (e : String)
    (hcomp : getGpuComponents = pre ++ c :: post)
    (htemp : env.output env.vcgencmd ["measure_temp"] = Except.ok stdoutTemp)
    (htparse : env.parseFloat (trimSuffix (afterEq stdoutTemp) "\x27C\n")
        = Except.ok temp)
    (hpre : ∀ x ∈ pre, ∃ out,
        env.output env.vcgencmd ["measure_clock", x] = Except.ok out ∧
        env.parseFloat (trimSuffix (afterEq out) "\n") = Except.ok (freqOf x))
    (hc : env.output env.vcgencmd ["measure_clock", c] = Except.error e) :
    gpuUpdate env
      = (GpuMetric.temperatureCelsius temp ::
          pre.map (fun x => GpuMetric.frequencyHertz x (freqOf x)), some e) := by
  rw [gpuUpdate, htemp]
  simp only [htparse]
  rw [hcomp, gpuFreqLoop_fails_at env freqOf c e post hc pre
    [GpuMetric.temperatureCelsius temp] hpre]
  simp

/-- Witness for the amended C8 at the concrete collaborator fixture. -/
theorem gpu_update_fails_whole_call_witness :
    gpuUpdate gpuTestEnv
      = ([GpuMetric.temperatureCelsius "55.3",
          GpuMetric.frequencyHertz "core" "400000000"], some "exit status 1") :=
  gpu_update_fails_whole_call gpuTestEnv "55.3" "temp=55.3\x27C\n"
    (fun _ => "400000000") ["core"] ["v3d"] "h264" "exit status 1" rfl (by decide)
    (by decide)
    (by
      intro x hx
      have hx' : x = "core" := by
        rcases List.mem_cons.mp hx with h | h
        · exact h
        · simp at h
      subst hx'
      exact ⟨"frequency(1)=400000000\n", by decide, by decide⟩)
    (by decide)

end RpiExporter
